import Mathlib

/-!
# Verification of the hermes identity / payment gateway

Shallow embedding of the repository's Rust sources (`src/main.rs`,
`src/routes.rs`, `src/register.rs`, `src/invoice.rs`) and proofs about the
behaviour of the embedded operations.

Modelling conventions:
* machine integers become `Nat`/`Int` (timestamps are `Int`, mirroring the
  `i64` arithmetic `now - 120_i64` / `now + 120_i64` of the source);
* fallible operations return `Except`;
* the impure collaborators that live outside the four source files (the
  database layer `db`, the multimint wrapper `mm`, the matrix client, the
  nostr library's signature verification) are modelled as explicit
  environment records of pure functions: each environment field stands for
  the observable outcome of one collaborator call, so a handler becomes a
  pure function of its environment and its request.
-/

namespace Hermes

/-! ## CORS policy (`src/main.rs` constants, `src/routes.rs` lines 488-510) -/

/-- The explicit origin allow-list, `ALLOWED_ORIGINS` in `src/main.rs`. -/
def ALLOWED_ORIGINS : List String :=
  ["https://app.mutinywallet.com",
   "capacitor://localhost",
   "https://signet-app.mutinywallet.com",
   "http://localhost:3420",
   "http://localhost",
   "https://localhost"]

/-- `ALLOWED_SUBDOMAIN` in `src/main.rs`. -/
def ALLOWED_SUBDOMAIN : String := ".mutiny-web.pages.dev"

/-- `ALLOWED_LOCALHOST` in `src/main.rs`. -/
def ALLOWED_LOCALHOST : String := "http://127.0.0.1:"

/-- Rust's `str::ends_with` (a byte-suffix test) modelled over character
lists; for the all-ascii suffix the policy uses, byte suffixes and
character suffixes coincide. -/
def strEndsWith (s suf : String) : Bool := suf.data.isSuffixOf s.data

/-- Rust's `str::starts_with` (a byte-prefix test) modelled over character
lists; for the all-ascii pattern the policy uses, byte prefixes and
character prefixes coincide. -/
def strStartsWith (s pat : String) : Bool := pat.data.isPrefixOf s.data

/-- `valid_origin` from `src/routes.rs`: member of the allow-list, or ends
with the allowed subdomain, or starts with the allowed localhost string. -/
def valid_origin (origin : String) : Bool :=
  ALLOWED_ORIGINS.contains origin
    || strEndsWith origin ALLOWED_SUBDOMAIN
    || strStartsWith origin ALLOWED_LOCALHOST

/-- An `Origin` header value, modelled as its serialized string; the axum
`Origin::is_null` test corresponds to the serialized value `"null"`. -/
def isNullOrigin (origin : String) : Bool := origin == "null"

/-- `validate_cors` from `src/routes.rs`: accept a missing header, accept the
null origin, accept a `valid_origin`, otherwise reject with 404 and an empty
body. -/
def validate_cors (origin : Option String) : Except (Nat × String) Unit :=
  match origin with
  | some o =>
      if isNullOrigin o then Except.ok ()
      else if valid_origin o then Except.ok ()
      else Except.error (404, "")
  | none => Except.ok ()

/-! ## Signed control events (`src/routes.rs` lines 26-28, 88-255) -/

/-- `REGISTRATION_CHECK_EVENT_KIND` in `src/routes.rs`. -/
def REGISTRATION_CHECK_EVENT_KIND : Nat := 93186

/-- `NEW_FEDERATION_EVENT_KIND` in `src/routes.rs`. -/
def NEW_FEDERATION_EVENT_KIND : Nat := 93187

/-- `DISABLE_ZAPS_EVENT_KIND` in `src/routes.rs`. -/
def DISABLE_ZAPS_EVENT_KIND : Nat := 93188

/-- A nostr event as the control endpoints consume it: author pubkey,
declared creation timestamp, kind, content payload.  `sigValid` abstracts the
outcome of `event.verify()` (`true` = `Ok`): the cryptographic check itself
lives in the nostr library, outside this repository. -/
structure Event where
  author : String
  createdAt : Int
  kind : Nat
  content : String
  sigValid : Bool
deriving Repr, DecidableEq

/-- The guard shared by the three control endpoints
(`event.verify().is_err() && event.kind() != KIND`): the handler rejects with
"Bad event" exactly when the signature fails to verify AND the kind differs
from the endpoint's kind. -/
def badEventGuard (e : Event) (expectedKind : Nat) : Bool :=
  (!e.sigValid) && (e.kind != expectedKind)

/-- The timestamp guard shared by the three control endpoints
(`created_at < now - 120_i64 && created_at > now + 120_i64`): the handler
rejects with "Event time not in range" exactly when this is `true`. -/
def eventTimeNotInRange (createdAt now : Int) : Bool :=
  (createdAt < now - 120) && (createdAt > now + 120)

/-- An account row (`models::app_user::AppUser`, a module not present in the
sources; modelled from the spec: public key, unique validated name, selected
federation id and invite code, notification-opt-out flag, internal id). -/
structure AppUser where
  id : Nat
  pubkey : String
  name : String
  federationId : String
  federationInviteCode : String
  disabledZaps : Bool
deriving Repr, DecidableEq

/-- The body of a successful `check-registration` response
(`RegistrationInfo` in `src/routes.rs`). -/
structure RegistrationInfo where
  name : Option String
  federationId : Option String
  disabledZaps : Bool
deriving Repr, DecidableEq

/-- The multimint wrapper `state.mm` as the handlers observe it:
whether a federation id is currently joined, and whether a
`register_new_federation` call on an invite code would succeed. -/
structure MintEnv where
  hasFederation : String → Bool
  registerNewFederationOk : String → Bool

/-- The collaborators of the route handlers (`state.db`, `state.mm`, and the
fedimint parsers): lookup by pubkey, `FederationId::from_str` (returning the
parsed id), `InviteCode::from_str` (returning the federation id the invite
code carries), the user-mutation calls, and the mint wrapper.  Database
reads/writes are modelled as total (their transport-error branches map any
failure to a 400/`handle_anyhow_error` response and are not exercised by the
claims); user mutations keep their fallible `anyhow::Result` shape. -/
structure RoutesEnv where
  getUserByPubkey : String → Option AppUser
  parseFederationId : String → Option String
  parseInviteCode : String → Option String
  updateUserFederation : AppUser → String → String → Except String Unit
  disableUserZaps : AppUser → Except String Unit
  mm : MintEnv

/-- `ensure_added_federation` from `src/register.rs`: if the federation is not
yet joined, try to register it, mapping failure to 400 "InvalidFederation". -/
def ensure_added_federation (mm : MintEnv) (federationId inviteCode : String) :
    Except (Nat × String) Unit :=
  if !mm.hasFederation federationId then
    if mm.registerNewFederationOk inviteCode then Except.ok ()
    else Except.error (400, "InvalidFederation")
  else Except.ok ()

/-- `check_registration_info` from `src/routes.rs` (lines 88-140): CORS, the
bad-event guard, the timestamp guard, then a lookup of the author's pubkey;
a registered user yields their name/federation/zap flag (500 if the stored
federation id fails to parse), an unregistered pubkey yields
`(none, none, true)`. -/
def check_registration_info (env : RoutesEnv) (origin : Option String)
    (now : Int) (e : Event) : Except (Nat × String) RegistrationInfo :=
  match validate_cors origin with
  | Except.error err => Except.error err
  | Except.ok () =>
    if badEventGuard e REGISTRATION_CHECK_EVENT_KIND then
      Except.error (400, "Bad event")
    else if eventTimeNotInRange e.createdAt now then
      Except.error (400, "Event time not in range")
    else
      match env.getUserByPubkey e.author with
      | some u =>
          match env.parseFederationId u.federationId with
          | some fid => Except.ok ⟨some u.name, some fid, u.disabledZaps⟩
          | none => Except.error (500, "FederationId invalid")
      | none => Except.ok ⟨none, none, true⟩

/-- `change_federation` from `src/routes.rs` (lines 142-204): CORS, the
bad-event guard, the timestamp guard, parse the invite code from the event
content, ensure the federation is joined, then update the author's account
(404 if the author is unregistered, 400 via `handle_anyhow_error` if the
update fails). -/
def change_federation (env : RoutesEnv) (origin : Option String)
    (now : Int) (e : Event) : Except (Nat × String) Unit :=
  match validate_cors origin with
  | Except.error err => Except.error err
  | Except.ok () =>
    if badEventGuard e NEW_FEDERATION_EVENT_KIND then
      Except.error (400, "Bad event")
    else if eventTimeNotInRange e.createdAt now then
      Except.error (400, "Event time not in range")
    else
      match env.parseInviteCode e.content with
      | none => Except.error (400, "InviteCode Invalid")
      | some federationId =>
        match ensure_added_federation env.mm federationId e.content with
        | Except.error err => Except.error err
        | Except.ok () =>
          match env.getUserByPubkey e.author with
          | some u =>
              match env.updateUserFederation u federationId e.content with
              | Except.ok () => Except.ok ()
              | Except.error msg => Except.error (400, msg)
          | none => Except.error (404, "User not found")

/-- `disable_zaps` from `src/routes.rs` (lines 206-255): CORS, the bad-event
guard, the timestamp guard, then disable zaps on the author's account (404 if
the author is unregistered). -/
def disable_zaps (env : RoutesEnv) (origin : Option String)
    (now : Int) (e : Event) : Except (Nat × String) Unit :=
  match validate_cors origin with
  | Except.error err => Except.error err
  | Except.ok () =>
    if badEventGuard e DISABLE_ZAPS_EVENT_KIND then
      Except.error (400, "Bad event")
    else if eventTimeNotInRange e.createdAt now then
      Except.error (400, "Event time not in range")
    else
      match env.getUserByPubkey e.author with
      | some u =>
          match env.disableUserZaps u with
          | Except.ok () => Except.ok ()
          | Except.error msg => Except.error (400, msg)
      | none => Except.error (404, "User not found")

/-! ## Registration (`src/register.rs`) -/

/-- Membership in the character class of `ALPHANUMERIC_REGEX`
(`^[a-z0-9-_.]+$`): lowercase ascii letter, ascii digit, `-`, `_` or `.`
(inside the class, the `-` after the `0-9` range is a literal dash). -/
def allowedNameChar (c : Char) : Bool :=
  (('a' ≤ c && c ≤ 'z') || ('0' ≤ c && c ≤ '9') || c == '-' || c == '_' || c == '.')

/-- `is_valid_name` from `src/register.rs`: length within `2..=30` and every
character in the regex class.  The source measures `name.len()` in bytes; we
measure characters, which is extensionally the same function: a string whose
characters all lie in the (ascii) class has equal byte and character length,
and a string with a character outside the class is rejected either way. -/
def is_valid_name (name : String) : Bool :=
  (2 ≤ name.length && name.length ≤ 30) && name.data.all allowedNameChar

/-- The name pattern exactly as the spec words it:
`^[a-z0-9\-_.]{2,30}$` — between 2 and 30 characters, each a lowercase
letter, digit, dash, underscore or dot.  Stated from the spec to be compared
against the source-derived `is_valid_name`. -/
def specNamePattern (name : String) : Prop :=
  2 ≤ name.length ∧ name.length ≤ 30 ∧ ∀ c ∈ name.data, allowedNameChar c = true

instance (name : String) : Decidable (specNamePattern name) := by
  unfold specNamePattern; infer_instance

/-- The collaborators of `src/register.rs`: `PublicKey::from_str` success,
the store's `check_name_available` (fallible, as in the source, where a
storage error maps to 500 "ServerError"), `InviteCode::from_str` (returning
the federation id carried by the invite code), the store's
`insert_new_user` (an `Err` covers any storage failure, in particular a
uniqueness violation on the name), the mint wrapper, and the name the random
generator would produce (`generate_random_name`, whose retry loop is not
itself modelled). -/
structure RegisterEnv where
  validPubkey : String → Bool
  checkNameAvailable : String → Except Unit Bool
  parseInviteCode : String → Option String
  insertNewUserOk : String → String → String → String → Bool
  mm : MintEnv
  freshName : String

/-- `RegisterRequest` from `src/routes.rs`. -/
structure RegisterRequest where
  name : Option String
  pubkey : String
  federationInviteCode : String
deriving Repr, DecidableEq

/-- `RegisterResponse` from `src/routes.rs`. -/
structure RegisterResponse where
  name : String
deriving Repr, DecidableEq

/-- `check_available` from `src/register.rs`: an invalid name is reported
unavailable without consulting the store; a valid one defers to the store's
`check_name_available`. -/
def check_available (env : RegisterEnv) (name : String) : Except Unit Bool :=
  if !is_valid_name name then Except.ok false
  else env.checkNameAvailable name

/-- `register` from `src/register.rs` (lines 70-131): validate a requested
name, validate the pubkey, pick the name (requested or generated), consult
`check_name_available` (false ↦ 400 "Unavailable", storage error ↦ 500
"ServerError"), parse the invite code (failure ↦ 400 "InvalidFederation"),
`ensure_added_federation`, then `insert_new_user`; any insert failure —
including losing a uniqueness race — maps to 500 "ServerError". -/
def register (env : RegisterEnv) (req : RegisterRequest) :
    Except (Nat × String) RegisterResponse :=
  let requestedPaid := req.name.isSome
  if requestedPaid && !is_valid_name (req.name.getD "") then
    Except.error (400, "Unavailable")
  else if !env.validPubkey req.pubkey then
    Except.error (400, "Nostr Pubkey Invalid")
  else
    let nameToRegister := match req.name with
      | some n => n
      | none => env.freshName
    match env.checkNameAvailable nameToRegister with
    | Except.ok true =>
      match env.parseInviteCode req.federationInviteCode with
      | none => Except.error (400, "InvalidFederation")
      | some federationId =>
        match ensure_added_federation env.mm federationId req.federationInviteCode with
        | Except.error err => Except.error err
        | Except.ok () =>
          if env.insertNewUserOk req.pubkey nameToRegister federationId
              req.federationInviteCode then
            Except.ok ⟨nameToRegister⟩
          else
            Except.error (500, "ServerError")
    | Except.ok false => Except.error (400, "Unavailable")
    | Except.error _ => Except.error (500, "ServerError")

/-! ## Payment state machine (`src/invoice.rs`) -/

/-- `InvoiceState` from `src/invoice.rs`: pending, settled (paid), or
cancelled/expired. -/
inductive InvoiceState where
  | Pending
  | Settled
  | Cancelled
deriving Repr, DecidableEq

/-- A payment-request row (`models::invoice::Invoice`, a module not present
in the sources; modelled from the spec: internal id, owning account id,
federation identifier, federation-assigned operation identifier, the
wire-encoded payment request string, lifecycle state). -/
structure Invoice where
  id : Nat
  appUserId : Nat
  federationId : String
  opId : String
  bolt11 : String
  state : InvoiceState
deriving Repr, DecidableEq

/-- The federation-reported states a watcher reacts to
(`fedimint_ln_client::LnReceiveState`): `canceled` and `claimed` are the two
terminal events the watcher handles; `other` stands for every remaining
variant (`Created`, `WaitingForPayment`, `Funded`, ...), all ignored by the
`_ => {}` arm. -/
inductive LnReceiveState where
  | canceled
  | claimed
  | other
deriving Repr, DecidableEq

/-- One observable action of a payment watcher: invoking the delivery
notifier (`notify_user`, recording whether it succeeded) or persisting a row
state (`db.set_invoice_state`, modelled as succeeding; its error branch only
logs). -/
inductive WatcherAction where
  | notify (ok : Bool)
  | setState (s : InvoiceState)
deriving Repr, DecidableEq

/-- Whether a watcher action is a state transition (`set_invoice_state`). -/
def isSetAction : WatcherAction → Bool
  | WatcherAction.setState _ => true
  | WatcherAction.notify _ => false

/-- The body of `spawn_invoice_subscription` from `src/invoice.rs`
(lines 81-127) as the trace of actions it performs on a stream of events:
on `canceled`, persist `Cancelled` and stop; on `claimed`, invoke the
notifier once, persist `Settled` only if it succeeded, and stop either way;
ignore every other event and keep reading.  `notifyOk` is the outcome the
single possible `notify_user` call would have. -/
def spawn_invoice_subscription (notifyOk : Bool) :
    List LnReceiveState → List WatcherAction
  | [] => []
  | e :: rest =>
    match e with
    | LnReceiveState.canceled => [WatcherAction.setState InvoiceState.Cancelled]
    | LnReceiveState.claimed =>
        if notifyOk then
          [WatcherAction.notify true, WatcherAction.setState InvoiceState.Settled]
        else
          [WatcherAction.notify false]
    | LnReceiveState.other => spawn_invoice_subscription notifyOk rest

/-- The collaborators of `handle_pending_invoices`:
`FederationId::from_str` success, `state.mm.get_federation_client` presence,
`subscribe_ln_receive` success per (federation, operation id),
`Bolt11Invoice::is_expired` on the row's wire request at the wall clock of
the pass, and `db.get_user_by_id`.  `db.set_invoice_state` is modelled as
succeeding and `op_id.parse()` as parsing (rows are written by this process
with well-formed operation ids). -/
structure RecoveryEnv where
  parseFederationId : String → Bool
  hasClient : String → Bool
  subscribeOk : String → String → Bool
  isExpired : String → Bool
  getUserById : Nat → Option AppUser

/-- Whether the recovery pass can obtain a federation client for a stored
federation-id string: `FederationId::from_str` parses it and
`get_federation_client` returns one. -/
def RecoveryEnv.resolves (env : RecoveryEnv) (federationId : String) : Bool :=
  env.parseFederationId federationId && env.hasClient federationId

/-- The per-row loop of `handle_pending_invoices` for one federation group
(lines 47-73): an expired row is persisted `Cancelled` and skipped; otherwise
the subscription is opened — on failure the row is silently skipped, on
success the owning user is looked up (a missing user aborts the whole pass,
the `?` on `get_user_by_id(..)?.ok_or(..)?`) and the row's operation id is
monitored.  Returns the state updates performed and the operation ids
monitored. -/
def recoverRows (env : RecoveryEnv) (federationId : String) :
    List Invoice → Except String (List (Nat × InvoiceState) × List String)
  | [] => Except.ok ([], [])
  | inv :: rest =>
    if env.isExpired inv.bolt11 then
      match recoverRows env federationId rest with
      | Except.ok (ups, mons) =>
          Except.ok ((inv.id, InvoiceState.Cancelled) :: ups, mons)
      | Except.error msg => Except.error msg
    else if env.subscribeOk federationId inv.opId then
      match env.getUserById inv.appUserId with
      | some _ =>
          match recoverRows env federationId rest with
          | Except.ok (ups, mons) => Except.ok (ups, inv.opId :: mons)
          | Except.error msg => Except.error msg
      | none => Except.error "no user"
    else
      recoverRows env federationId rest

/-- One federation group of `handle_pending_invoices` (lines 42-46): if the
stored federation-id string fails to parse, or no client is joined for it,
the whole group is silently skipped; otherwise its rows are processed. -/
def recoverGroup (env : RecoveryEnv) (federationId : String)
    (invs : List Invoice) : Except String (List (Nat × InvoiceState) × List String) :=
  if env.parseFederationId federationId then
    if env.hasClient federationId then recoverRows env federationId invs
    else Except.ok ([], [])
  else Except.ok ([], [])

/-- `group_by` from itertools as the source uses it: split a list into runs
of CONSECUTIVE rows sharing a federation id. -/
def groupByFed : List Invoice → List (String × List Invoice)
  | [] => []
  | inv :: rest =>
    match groupByFed rest with
    | [] => [(inv.federationId, [inv])]
    | (k, g) :: t =>
        if inv.federationId == k then (k, inv :: g) :: t
        else (inv.federationId, [inv]) :: (k, g) :: t

/-- `.collect::<HashMap<_, _>>()` over the keyed runs: a hash map keeps one
entry per key, and a later run OVERWRITES an earlier run with the same key.
Modelled as keeping, for each key, its last occurrence (the map's iteration
order, arbitrary in the source, is modelled as the order of those last
occurrences). -/
def collectMap : List (String × List Invoice) → List (String × List Invoice)
  | [] => []
  | (k, v) :: rest =>
      if rest.any (fun p => p.1 == k) then collectMap rest
      else (k, v) :: collectMap rest

/-- The group loop of `handle_pending_invoices`, concatenating each group's
updates and monitored ids; a failing group (missing user) aborts the pass,
as the `?` operators do in the source. -/
def recoverGroups (env : RecoveryEnv) :
    List (String × List Invoice) → Except String (List (Nat × InvoiceState) × List String)
  | [] => Except.ok ([], [])
  | (k, g) :: rest =>
    match recoverGroup env k g with
    | Except.error msg => Except.error msg
    | Except.ok (ups, mons) =>
      match recoverGroups env rest with
      | Except.error msg => Except.error msg
      | Except.ok (ups2, mons2) => Except.ok (ups ++ ups2, mons ++ mons2)

/-- `handle_pending_invoices` from `src/invoice.rs` (lines 31-79) over the
pending rows returned by `db.get_pending_invoices`: group consecutive rows
by federation id, collect the groups into a map (later runs overwriting
earlier ones with the same key), and process each surviving group.  Returns
the `(row id, new state)` updates persisted and the operation ids now
monitored, or the error that aborted the pass. -/
def handle_pending_invoices (env : RecoveryEnv) (rows : List Invoice) :
    Except String (List (Nat × InvoiceState) × List String) :=
  recoverGroups env (collectMap (groupByFed rows))

/-! ## LNURL protocol routes (`src/routes.rs` lines 30-41, 357-460) -/

/-- `LnurlStatus` from `src/routes.rs` (serialized `"OK"` / `"ERROR"`). -/
inductive LnurlStatus where
  | ok
  | error
deriving Repr, DecidableEq

/-- `LnUrlErrorResponse` from `src/routes.rs`: the LNURL error envelope,
a status and a reason. -/
structure LnUrlErrorResponse where
  status : LnurlStatus
  reason : String
deriving Repr, DecidableEq

/-- An HTTP response of an LNURL route: transport status code plus either
the route's success payload or the error envelope. -/
inductive LnurlHttpBody (α : Type) where
  | payload (a : α)
  | envelope (e : LnUrlErrorResponse)
deriving Repr, DecidableEq

/-- `impl IntoResponse for LnUrlErrorResponse`: the envelope is delivered
with `StatusCode::OK` (200), never as a transport-level error. -/
def LnUrlErrorResponse.intoResponse {α : Type} (e : LnUrlErrorResponse) :
    Nat × LnurlHttpBody α :=
  (200, LnurlHttpBody.envelope e)

/-- `LnurlWellKnownResponse` from `src/routes.rs` (discovery metadata). -/
structure LnurlWellKnownResponse where
  callback : String
  maxSendable : Nat
  minSendable : Nat
  metadata : String
  commentAllowed : Option Int
  status : LnurlStatus
  nostrPubkey : Option String
  allowsNostr : Bool
deriving Repr, DecidableEq

/-- `LnurlCallbackResponse` from `src/routes.rs`. -/
structure LnurlCallbackResponse where
  status : LnurlStatus
  reason : Option String
  pr : String
  verifyUrl : String
deriving Repr, DecidableEq

/-- `LnurlVerifyResponse` from `src/routes.rs`. -/
structure LnurlVerifyResponse where
  status : LnurlStatus
  settled : Bool
  preimage : Option String
  pr : String
deriving Repr, DecidableEq

/-- `well_known_lnurlp_route` from `src/routes.rs` (lines 357-375) as a
function of the inner handler's outcome (`well_known_lnurlp`, in the
`lnurlp` module outside these sources): a success is returned as a 200 JSON
payload, any error as the 200 error envelope carrying the error's message. -/
def well_known_lnurlp_route (inner : Except String LnurlWellKnownResponse) :
    Nat × LnurlHttpBody LnurlWellKnownResponse :=
  match inner with
  | Except.ok res => (200, LnurlHttpBody.payload res)
  | Except.error e => LnUrlErrorResponse.intoResponse ⟨LnurlStatus.error, e⟩

/-- `lnurl_callback_route` from `src/routes.rs` (lines 412-431) as a
function of the inner handler's outcome (`lnurl_callback`). -/
def lnurl_callback_route (inner : Except String LnurlCallbackResponse) :
    Nat × LnurlHttpBody LnurlCallbackResponse :=
  match inner with
  | Except.ok res => (200, LnurlHttpBody.payload res)
  | Except.error e => LnUrlErrorResponse.intoResponse ⟨LnurlStatus.error, e⟩

/-- `lnurl_verify_route` from `src/routes.rs` (lines 442-460) as a function
of the inner handler's outcome (`verify`). -/
def lnurl_verify_route (inner : Except String LnurlVerifyResponse) :
    Nat × LnurlHttpBody LnurlVerifyResponse :=
  match inner with
  | Except.ok res => (200, LnurlHttpBody.payload res)
  | Except.error e => LnUrlErrorResponse.intoResponse ⟨LnurlStatus.error, e⟩

/-! ## Concrete test fixtures -/

/-- A mint wrapper for which every federation is joined and every join
succeeds. -/
def mintEnvAll : MintEnv := ⟨fun _ => true, fun _ => true⟩

/-- A registered account row. -/
def userAlice : AppUser := ⟨1, "pk1", "alice", "fed1", "code1", false⟩

/-- A routes environment in which `pk1` is registered as `userAlice`, every
federation-id string parses to itself, every invite code parses to `"fed2"`,
and every account mutation succeeds. -/
def routesEnvReg : RoutesEnv :=
  ⟨fun _ => some userAlice, fun s => some s, fun _ => some "fed2",
   fun _ _ _ => Except.ok (), fun _ => Except.ok (), mintEnvAll⟩

/-- A routes environment with no registered users. -/
def routesEnvEmpty : RoutesEnv :=
  ⟨fun _ => none, fun s => some s, fun _ => some "fed2",
   fun _ _ _ => Except.ok (), fun _ => Except.ok (), mintEnvAll⟩

/-- A register environment reproducing a lost uniqueness race: the
preliminary availability check still reports the name free, but the insert
fails (unique constraint). -/
def registerEnvRace : RegisterEnv :=
  ⟨fun _ => true, fun _ => Except.ok true, fun _ => some "fed1",
   fun _ _ _ _ => false, mintEnvAll, "generated"⟩

/-- A register environment in which everything succeeds. -/
def registerEnvOk : RegisterEnv :=
  ⟨fun _ => true, fun _ => Except.ok true, fun _ => some "fed1",
   fun _ _ _ _ => true, mintEnvAll, "generated"⟩

/-- A registration request for the name `alice`. -/
def reqAlice : RegisterRequest := ⟨some "alice", "pk1", "code1"⟩

/-- A recovery environment in which no federation-id string parses (so no
federation resolves) while every stored payment request is expired by
wall-clock. -/
def recoveryEnvUnresolvable : RecoveryEnv :=
  ⟨fun _ => false, fun _ => false, fun _ _ => false, fun _ => true,
   fun _ => some userAlice⟩

/-- A pending payment row whose wire request is expired, in federation
`fedX`. -/
def rowExpired : Invoice := ⟨1, 1, "fedX", "op1", "lnbc1", InvoiceState.Pending⟩

/-- A recovery environment for the three-row witness scenario: federations
`fedA` and `fedB` resolve, subscriptions open for `op2` and `op3`, the wire
request `"exp"` is expired, and every user id is registered. -/
def recoveryEnvW : RecoveryEnv :=
  ⟨fun s => s == "fedA" || s == "fedB", fun s => s == "fedA" || s == "fedB",
   fun _ op => op == "op2" || op == "op3", fun b => b == "exp",
   fun _ => some userAlice⟩

/-- Three pending rows across two federations, the first of which is
expired; rows of each federation are consecutive. -/
def rowsW : List Invoice :=
  [⟨1, 1, "fedA", "op1", "exp", InvoiceState.Pending⟩,
   ⟨2, 1, "fedA", "op2", "live", InvoiceState.Pending⟩,
   ⟨3, 1, "fedB", "op3", "live", InvoiceState.Pending⟩]

/-! ## Theorems -/

/-- C1: the claim says a signed control-endpoint request whose signature
does not verify is rejected with 400 "Bad event" regardless of kind.  The
code's guard is `event.verify().is_err() && event.kind() != KIND`, so an
event with an INVALID signature but the endpoint's expected kind passes the
guard on all three endpoints: check-registration answers the query,
change-federation mutates the account, disable-zaps mutates the account. -/
theorem c1_signature_check_bypassed :
    check_registration_info routesEnvReg none 1000
        ⟨"pk1", 1000, REGISTRATION_CHECK_EVENT_KIND, "", false⟩ =
      Except.ok ⟨some "alice", some "fed1", false⟩ ∧
    change_federation routesEnvReg none 1000
        ⟨"pk1", 1000, NEW_FEDERATION_EVENT_KIND, "invite", false⟩ =
      Except.ok () ∧
    disable_zaps routesEnvReg none 1000
        ⟨"pk1", 1000, DISABLE_ZAPS_EVENT_KIND, "", false⟩ =
      Except.ok () :=
  ⟨rfl, rfl, rfl⟩

/-- C2: the claim says an event whose timestamp is more than 120 units from
now is rejected with 400 "Event time not in range".  The code's condition
`created_at < now - 120 && created_at > now + 120` is unsatisfiable, so the
timestamp guard never fires: a 10000-units-stale, validly-signed event of
the right kind is accepted and dispatched. -/
theorem c2_timestamp_check_never_rejects :
    (∀ createdAt now : Int, eventTimeNotInRange createdAt now = false) ∧
    check_registration_info routesEnvReg none 10000
        ⟨"pk1", 0, REGISTRATION_CHECK_EVENT_KIND, "", true⟩ =
      Except.ok ⟨some "alice", some "fed1", false⟩ := by
  constructor
  · intro c n
    by_cases h : c < n - 120
    · have h2 : ¬ (c > n + 120) := by omega
      simp [eventTimeNotInRange, h, h2]
    · simp [eventTimeNotInRange, h]
  · rfl

/-- C5 counterexample: the claim says a registration that passes the
preliminary availability check but loses the uniqueness race at insert time
fails with NameUnavailable/Conflict.  In the code, any `insert_new_user`
failure — including a lost uniqueness race — is mapped to
`(500, "ServerError")`, not to the `(400, "Unavailable")` NameUnavailable
rejection (nor a 409). -/
theorem c5_insert_race_returns_server_error :
    register registerEnvRace reqAlice = Except.error (500, "ServerError") ∧
    ((500 : Nat), "ServerError") ≠ ((400 : Nat), "Unavailable") := by
  exact ⟨rfl, by decide⟩

/-- C5 amended: a registration that passes the preliminary availability
check but loses the uniqueness race at insert time fails with
`(500, "ServerError")` (Internal), so of two concurrent registrations for
the same name the insert winner succeeds and the loser fails with the 500
ServerError response. -/
theorem c5_insert_race_amended :
    ∀ (env : RegisterEnv) (req : RegisterRequest) (name fedId : String),
      req.name = some name →
      is_valid_name name = true →
      env.validPubkey req.pubkey = true →
      env.checkNameAvailable name = Except.ok true →
      env.parseInviteCode req.federationInviteCode = some fedId →
      ensure_added_federation env.mm fedId req.federationInviteCode =
        Except.ok () →
      (env.insertNewUserOk req.pubkey name fedId req.federationInviteCode =
          false →
        register env req = Except.error (500, "ServerError")) ∧
      (env.insertNewUserOk req.pubkey name fedId req.federationInviteCode =
          true →
        register env req = Except.ok ⟨name⟩) := by
  intro env req name fedId hn hv hp hc hpi he
  constructor <;> intro hi <;> simp [register, hn, hv, hp, hc, hpi, he, hi]

/-- C5 witness: concrete environments exercising both sides of the race. -/
theorem c5_insert_race_amended_witness :
    register registerEnvRace reqAlice = Except.error (500, "ServerError") ∧
    register registerEnvOk reqAlice = Except.ok ⟨"alice"⟩ := by
  constructor
  · exact (c5_insert_race_amended registerEnvRace reqAlice "alice" "fed1"
      rfl (by decide) rfl rfl rfl rfl).1 rfl
  · exact (c5_insert_race_amended registerEnvOk reqAlice "alice" "fed1"
      rfl (by decide) rfl rfl rfl rfl).2 rfl

/-- C7: `check_available` returns false for every name outside the pattern
`^[a-z0-9\-_.]{2,30}$` (in particular lengths 0, 1 and 31, uppercase,
whitespace, and symbols outside `-_.`), and for names inside the pattern it
returns exactly the store's availability answer; `is_valid_name` agrees with
the spec's pattern. -/
theorem c7_check_available_spec :
    ∀ (env : RegisterEnv) (name : String),
      (is_valid_name name = true ↔ specNamePattern name) ∧
      (¬ specNamePattern name → check_available env name = Except.ok false) ∧
      (specNamePattern name →
        check_available env name = env.checkNameAvailable name) ∧
      is_valid_name "" = false ∧
      is_valid_name "n" = false ∧
      is_valid_name "abcdefghijklmnopqrstuvwxyz01234" = false ∧
      is_valid_name "BADNAME" = false ∧
      is_valid_name "bad name" = false ∧
      is_valid_name "bad&name" = false ∧
      is_valid_name "good_name" = true ∧
      is_valid_name "good.name" = true ∧
      is_valid_name "goodname1" = true := by
  intro env name
  have hiff : is_valid_name name = true ↔ specNamePattern name := by
    unfold is_valid_name specNamePattern
    simp only [Bool.and_eq_true, decide_eq_true_eq, List.all_eq_true]
    tauto
  refine ⟨hiff, ?_, ?_, by decide, by decide, by decide, by decide,
    by decide, by decide, by decide, by decide, by decide⟩
  · intro h
    have hv : is_valid_name name = false := by
      cases hval : is_valid_name name
      · rfl
      · exact absurd (hiff.mp hval) h
    simp [check_available, hv]
  · intro h
    simp [check_available, hiff.mpr h]

/-- C7 witness: a valid unregistered name is reported available. -/
theorem c7_check_available_spec_witness :
    check_available registerEnvOk "good_name" =
      registerEnvOk.checkNameAvailable "good_name" :=
  (c7_check_available_spec registerEnvOk "good_name").2.2.1 (by decide)

/-- C8: every LNURL payment-protocol route (discovery, callback, verify)
answers with transport status 200, and each error case is delivered as the
well-formed envelope with ERROR status and the failure reason — never as a
bare transport-level error status. -/
theorem c8_lnurl_envelope_always_200 :
    ∀ (r1 : Except String LnurlWellKnownResponse)
      (r2 : Except String LnurlCallbackResponse)
      (r3 : Except String LnurlVerifyResponse),
      (well_known_lnurlp_route r1).1 = 200 ∧
      (lnurl_callback_route r2).1 = 200 ∧
      (lnurl_verify_route r3).1 = 200 ∧
      (∀ e, r1 = Except.error e →
        (well_known_lnurlp_route r1).2 =
          LnurlHttpBody.envelope ⟨LnurlStatus.error, e⟩) ∧
      (∀ e, r2 = Except.error e →
        (lnurl_callback_route r2).2 =
          LnurlHttpBody.envelope ⟨LnurlStatus.error, e⟩) ∧
      (∀ e, r3 = Except.error e →
        (lnurl_verify_route r3).2 =
          LnurlHttpBody.envelope ⟨LnurlStatus.error, e⟩) := by
  intro r1 r2 r3
  refine ⟨?_, ?_, ?_, ?_, ?_, ?_⟩
  · cases r1 <;> rfl
  · cases r2 <;> rfl
  · cases r3 <;> rfl
  · intro e he; subst he; rfl
  · intro e he; subst he; rfl
  · intro e he; subst he; rfl

/-- C8 witness: a failing callback handler still yields a 200 envelope. -/
theorem c8_lnurl_envelope_always_200_witness :
    (lnurl_callback_route (Except.error "NotFound")).1 = 200 ∧
    (lnurl_callback_route (Except.error "NotFound")).2 =
      LnurlHttpBody.envelope ⟨LnurlStatus.error, "NotFound"⟩ := by
  obtain ⟨-, h2, -, -, h5, -⟩ :=
    c8_lnurl_envelope_always_200 (Except.error "a") (Except.error "NotFound")
      (Except.error "c")
  exact ⟨h2, h5 "NotFound" rfl⟩

/-- C9: `validate_cors` accepts a present Origin header exactly when the
origin is the null origin, is in the explicit allow-list, ends with the
allowed domain suffix, or starts with the allowed localhost string; every
other origin is rejected; the null origin is always accepted. -/
theorem c9_cors_policy :
    ∀ origin : String,
      (validate_cors (some origin) = Except.ok () ↔
        (origin = "null" ∨ ALLOWED_ORIGINS.contains origin = true ∨
          strEndsWith origin ALLOWED_SUBDOMAIN = true ∨
          strStartsWith origin ALLOWED_LOCALHOST = true)) ∧
      (validate_cors (some origin) ≠ Except.ok () →
        validate_cors (some origin) = Except.error (404, "")) ∧
      validate_cors (some "null") = Except.ok () := by
  intro origin
  have hred : validate_cors (some origin) =
      (if isNullOrigin origin then Except.ok ()
       else if valid_origin origin then Except.ok ()
       else Except.error (404, "")) := rfl
  have hmain : validate_cors (some origin) = Except.ok () ↔
      (isNullOrigin origin = true ∨ valid_origin origin = true) := by
    rw [hred]
    cases hn : isNullOrigin origin <;> cases hv : valid_origin origin <;>
      simp [hn, hv]
  refine ⟨?_, ?_, rfl⟩
  · rw [hmain]
    exact or_congr (by unfold isNullOrigin; exact beq_iff_eq)
      (by unfold valid_origin; rw [Bool.or_eq_true, Bool.or_eq_true]
          exact or_assoc)
  · intro h
    rw [hred] at h ⊢
    cases hn : isNullOrigin origin
    · rw [hn] at h
      cases hv : valid_origin origin
      · simp
      · rw [hv] at h
        simp at h
    · rw [hn] at h
      simp at h

/-- C9 witness: the policy applied at concrete origins. -/
theorem c9_cors_policy_witness :
    validate_cors (some "https://app.mutinywallet.com") = Except.ok () ∧
    validate_cors (some "https://evil.example.com") =
      Except.error (404, "") := by
  constructor
  · exact (c9_cors_policy "https://app.mutinywallet.com").1.mpr
      (Or.inr (Or.inl (by decide)))
  · have he : validate_cors (some "https://evil.example.com") =
        Except.error (404, "") := by rfl
    exact (c9_cors_policy "https://evil.example.com").2.1 (by rw [he]; simp)

/-- C10: a check-registration request that passes the envelope guards but
whose author pubkey is not registered is answered with success: name absent,
federation id absent, and the zap-opt-out flag reported `true`. -/
theorem c10_unregistered_pubkey_success :
    ∀ (env : RoutesEnv) (origin : Option String) (now : Int) (e : Event),
      validate_cors origin = Except.ok () →
      badEventGuard e REGISTRATION_CHECK_EVENT_KIND = false →
      eventTimeNotInRange e.createdAt now = false →
      env.getUserByPubkey e.author = none →
      check_registration_info env origin now e =
        Except.ok ⟨none, none, true⟩ := by
  intro env origin now e hc hb ht hu
  simp [check_registration_info, hc, hb, ht, hu]

/-- C10 witness: a fresh, validly-signed event from an unregistered key. -/
theorem c10_unregistered_pubkey_success_witness :
    check_registration_info routesEnvEmpty none 1000
        ⟨"pk9", 1000, REGISTRATION_CHECK_EVENT_KIND, "", true⟩ =
      Except.ok ⟨none, none, true⟩ :=
  c10_unregistered_pubkey_success routesEnvEmpty none 1000
    ⟨"pk9", 1000, REGISTRATION_CHECK_EVENT_KIND, "", true⟩ rfl rfl rfl rfl

/-- Every trace of a payment watcher has one of four shapes: no terminal
event arrived, a cancellation, a claim with a succeeding notifier, or a
claim with a failing notifier. -/
theorem spawnTrace_shape (ok : Bool) (evs : List LnReceiveState) :
    spawn_invoice_subscription ok evs = [] ∨
    spawn_invoice_subscription ok evs =
      [WatcherAction.setState InvoiceState.Cancelled] ∨
    (ok = true ∧ spawn_invoice_subscription ok evs =
      [WatcherAction.notify true, WatcherAction.setState InvoiceState.Settled]) ∨
    (ok = false ∧ spawn_invoice_subscription ok evs =
      [WatcherAction.notify false]) := by
  induction evs with
  | nil => exact Or.inl rfl
  | cons e rest ih =>
    cases e with
    | canceled => exact Or.inr (Or.inl rfl)
    | claimed =>
      cases ok with
      | true => exact Or.inr (Or.inr (Or.inl ⟨rfl, rfl⟩))
      | false => exact Or.inr (Or.inr (Or.inr ⟨rfl, rfl⟩))
    | other => exact ih

/-- C4: in every watcher run, if the row is transitioned to `Settled` then
the whole trace is "notifier invoked and succeeded, then `Settled`" (so the
notifier call happens before the transition and the transition happens only
on notifier success), and if the notifier fails then the trace is exactly
that single failing notifier call: no state transition (the row stays
`Pending`) and no retry. -/
theorem c4_notify_before_settled :
    ∀ (notifyOk : Bool) (events : List LnReceiveState),
      (WatcherAction.setState InvoiceState.Settled ∈
          spawn_invoice_subscription notifyOk events →
        spawn_invoice_subscription notifyOk events =
          [WatcherAction.notify true,
           WatcherAction.setState InvoiceState.Settled]) ∧
      (WatcherAction.notify false ∈ spawn_invoice_subscription notifyOk events →
        spawn_invoice_subscription notifyOk events =
          [WatcherAction.notify false]) := by
  intro ok evs
  rcases spawnTrace_shape ok evs with h | h | ⟨-, h⟩ | ⟨-, h⟩ <;>
    rw [h] <;> constructor <;> intro hm <;> simp_all

/-- C4 witness: a claim event with a succeeding notifier yields exactly
notify-then-settle; with a failing notifier, exactly one failed notify. -/
theorem c4_notify_before_settled_witness :
    spawn_invoice_subscription true [LnReceiveState.claimed] =
      [WatcherAction.notify true, WatcherAction.setState InvoiceState.Settled] ∧
    spawn_invoice_subscription false [LnReceiveState.claimed] =
      [WatcherAction.notify false] := by
  constructor
  · exact (c4_notify_before_settled true [LnReceiveState.claimed]).1 (by decide)
  · exact (c4_notify_before_settled false [LnReceiveState.claimed]).2 (by decide)

/-- Soundness of the per-row recovery loop: on success, every state update
is a cancellation of an expired row of the group and every monitored id
belongs to an unexpired, subscribable row of the group. -/
theorem recoverRows_sound (env : RecoveryEnv) (fid : String) :
    ∀ (invs : List Invoice) (ups : List (Nat × InvoiceState))
      (mons : List String),
      recoverRows env fid invs = Except.ok (ups, mons) →
      (∀ p ∈ ups, p.2 = InvoiceState.Cancelled ∧
        ∃ r, r ∈ invs ∧ r.id = p.1 ∧ env.isExpired r.bolt11 = true) ∧
      (∀ o ∈ mons, ∃ r, r ∈ invs ∧ r.opId = o ∧
        env.isExpired r.bolt11 = false ∧ env.subscribeOk fid r.opId = true) := by
  intro invs
  induction invs with
  | nil =>
    intro ups mons h
    rw [recoverRows] at h
    injection h with h
    injection h with h1 h2
    subst h1; subst h2
    exact ⟨by simp, by simp⟩
  | cons inv rest ih =>
    intro ups mons h
    rw [recoverRows] at h
    cases hexp : env.isExpired inv.bolt11 with
    | true =>
      rw [hexp] at h
      simp only [if_true] at h
      cases hrec : recoverRows env fid rest with
      | error msg => rw [hrec] at h; cases h
      | ok pr =>
        obtain ⟨ups', mons'⟩ := pr
        rw [hrec] at h
        injection h with h
        injection h with h1 h2
        subst h1; subst h2
        obtain ⟨ihu, ihm⟩ := ih ups' mons' hrec
        constructor
        · intro p hp
          rcases List.mem_cons.mp hp with hp | hp
          · subst hp
            exact ⟨rfl, inv, List.mem_cons_self _ _, rfl, hexp⟩
          · obtain ⟨hC, r, hr, hid, he⟩ := ihu p hp
            exact ⟨hC, r, List.mem_cons_of_mem _ hr, hid, he⟩
        · intro o ho
          obtain ⟨r, hr, hop, he, hs⟩ := ihm o ho
          exact ⟨r, List.mem_cons_of_mem _ hr, hop, he, hs⟩
    | false =>
      rw [hexp] at h
      simp only [Bool.false_eq_true, if_false] at h
      cases hsub : env.subscribeOk fid inv.opId with
      | true =>
        rw [hsub] at h
        simp only [if_true] at h
        cases hu : env.getUserById inv.appUserId with
        | none => rw [hu] at h; cases h
        | some u =>
          rw [hu] at h
          cases hrec : recoverRows env fid rest with
          | error msg => rw [hrec] at h; cases h
          | ok pr =>
            obtain ⟨ups', mons'⟩ := pr
            rw [hrec] at h
            injection h with h
            injection h with h1 h2
            subst h1; subst h2
            obtain ⟨ihu, ihm⟩ := ih ups' mons' hrec
            constructor
            · intro p hp
              obtain ⟨hC, r, hr, hid, he⟩ := ihu p hp
              exact ⟨hC, r, List.mem_cons_of_mem _ hr, hid, he⟩
            · intro o ho
              rcases List.mem_cons.mp ho with ho | ho
              · subst ho
                exact ⟨inv, List.mem_cons_self _ _, rfl, hexp, hsub⟩
              · obtain ⟨r, hr, hop, he, hs⟩ := ihm o ho
                exact ⟨r, List.mem_cons_of_mem _ hr, hop, he, hs⟩
      | false =>
        rw [hsub] at h
        simp only [Bool.false_eq_true, if_false] at h
        obtain ⟨ihu, ihm⟩ := ih ups mons h
        constructor
        · intro p hp
          obtain ⟨hC, r, hr, hid, he⟩ := ihu p hp
          exact ⟨hC, r, List.mem_cons_of_mem _ hr, hid, he⟩
        · intro o ho
          obtain ⟨r, hr, hop, he, hs⟩ := ihm o ho
          exact ⟨r, List.mem_cons_of_mem _ hr, hop, he, hs⟩

/-- Completeness of the per-row recovery loop: on success, every expired row
of the group got its cancellation recorded, and every unexpired row whose
subscription opens got its operation id monitored. -/
theorem recoverRows_complete (env : RecoveryEnv) (fid : String) :
    ∀ (invs : List Invoice) (ups : List (Nat × InvoiceState))
      (mons : List String),
      recoverRows env fid invs = Except.ok (ups, mons) →
      ∀ r ∈ invs,
        (env.isExpired r.bolt11 = true →
          (r.id, InvoiceState.Cancelled) ∈ ups) ∧
        (env.isExpired r.bolt11 = false →
          env.subscribeOk fid r.opId = true → r.opId ∈ mons) := by
  intro invs
  induction invs with
  | nil => intro ups mons h r hr; cases hr
  | cons inv rest ih =>
    intro ups mons h
    rw [recoverRows] at h
    cases hexp : env.isExpired inv.bolt11 with
    | true =>
      rw [hexp] at h
      simp only [if_true] at h
      cases hrec : recoverRows env fid rest with
      | error msg => rw [hrec] at h; cases h
      | ok pr =>
        obtain ⟨ups', mons'⟩ := pr
        rw [hrec] at h
        injection h with h
        injection h with h1 h2
        subst h1; subst h2
        intro r hr
        rcases List.mem_cons.mp hr with hr | hr
        · subst hr
          refine ⟨fun _ => List.mem_cons_self _ _, fun hne _ => ?_⟩
          rw [hexp] at hne; cases hne
        · obtain ⟨h1, h2⟩ := ih ups' mons' hrec r hr
          exact ⟨fun he => List.mem_cons_of_mem _ (h1 he), h2⟩
    | false =>
      rw [hexp] at h
      simp only [Bool.false_eq_true, if_false] at h
      cases hsub : env.subscribeOk fid inv.opId with
      | true =>
        rw [hsub] at h
        simp only [if_true] at h
        cases hu : env.getUserById inv.appUserId with
        | none => rw [hu] at h; cases h
        | some u =>
          rw [hu] at h
          cases hrec : recoverRows env fid rest with
          | error msg => rw [hrec] at h; cases h
          | ok pr =>
            obtain ⟨ups', mons'⟩ := pr
            rw [hrec] at h
            injection h with h
            injection h with h1 h2
            subst h1; subst h2
            intro r hr
            rcases List.mem_cons.mp hr with hr | hr
            · subst hr
              refine ⟨fun he => ?_, fun _ _ => List.mem_cons_self _ _⟩
              rw [hexp] at he; cases he
            · obtain ⟨h1, h2⟩ := ih ups' mons' hrec r hr
              exact ⟨h1, fun he hs => List.mem_cons_of_mem _ (h2 he hs)⟩
      | false =>
        rw [hsub] at h
        simp only [Bool.false_eq_true, if_false] at h
        intro r hr
        rcases List.mem_cons.mp hr with hr | hr
        · subst hr
          refine ⟨fun he => ?_, fun _ hs => ?_⟩
          · rw [hexp] at he; cases he
          · rw [hsub] at hs; cases hs
        · exact ih ups mons h r hr

/-- The per-row recovery loop succeeds whenever every row of the group
references an existing user. -/
theorem recoverRows_exists (env : RecoveryEnv) (fid : String) :
    ∀ invs : List Invoice,
      (∀ r ∈ invs, (env.getUserById r.appUserId).isSome = true) →
      ∃ ups mons, recoverRows env fid invs = Except.ok (ups, mons) := by
  intro invs
  induction invs with
  | nil => intro _; exact ⟨[], [], rfl⟩
  | cons inv rest ih =>
    intro husers
    obtain ⟨ups, mons, hrec⟩ :=
      ih fun r hr => husers r (List.mem_cons_of_mem _ hr)
    cases hexp : env.isExpired inv.bolt11 with
    | true =>
      refine ⟨(inv.id, InvoiceState.Cancelled) :: ups, mons, ?_⟩
      rw [recoverRows, hexp]
      simp only [if_true]
      rw [hrec]
    | false =>
      cases hsub : env.subscribeOk fid inv.opId with
      | true =>
        have hs := husers inv (List.mem_cons_self _ _)
        cases hu : env.getUserById inv.appUserId with
        | none => rw [hu] at hs; cases hs
        | some u =>
          refine ⟨ups, inv.opId :: mons, ?_⟩
          rw [recoverRows, hexp]
          simp only [Bool.false_eq_true, if_false]
          rw [hsub]
          simp only [if_true]
          rw [hu, hrec]
      | false =>
        refine ⟨ups, mons, ?_⟩
        rw [recoverRows, hexp]
        simp only [Bool.false_eq_true, if_false]
        rw [hsub]
        simp only [Bool.false_eq_true, if_false]
        exact hrec

/-- Soundness of one federation group: updates and monitored ids only arise
when the group's federation resolves, and then only as `recoverRows`
produces them. -/
theorem recoverGroup_sound (env : RecoveryEnv) (fid : String)
    (invs : List Invoice) (ups : List (Nat × InvoiceState))
    (mons : List String) :
    recoverGroup env fid invs = Except.ok (ups, mons) →
    (∀ p ∈ ups, p.2 = InvoiceState.Cancelled ∧
      ∃ r, r ∈ invs ∧ r.id = p.1 ∧ env.isExpired r.bolt11 = true ∧
        env.resolves fid = true) ∧
    (∀ o ∈ mons, ∃ r, r ∈ invs ∧ r.opId = o ∧
      env.isExpired r.bolt11 = false ∧ env.subscribeOk fid r.opId = true ∧
      env.resolves fid = true) := by
  intro h
  rw [recoverGroup] at h
  cases hp : env.parseFederationId fid with
  | false =>
    rw [hp] at h
    simp only [Bool.false_eq_true, if_false] at h
    injection h with h
    injection h with h1 h2
    subst h1; subst h2
    exact ⟨by simp, by simp⟩
  | true =>
    rw [hp] at h
    simp only [if_true] at h
    cases hc : env.hasClient fid with
    | false =>
      rw [hc] at h
      simp only [Bool.false_eq_true, if_false] at h
      injection h with h
      injection h with h1 h2
      subst h1; subst h2
      exact ⟨by simp, by simp⟩
    | true =>
      rw [hc] at h
      simp only [if_true] at h
      have hres : env.resolves fid = true := by
        rw [RecoveryEnv.resolves, hp, hc]; rfl
      obtain ⟨hu, hm⟩ := recoverRows_sound env fid invs ups mons h
      constructor
      · intro p hp'
        obtain ⟨hC, r, hr, hid, he⟩ := hu p hp'
        exact ⟨hC, r, hr, hid, he, hres⟩
      · intro o ho
        obtain ⟨r, hr, hop, he, hs⟩ := hm o ho
        exact ⟨r, hr, hop, he, hs, hres⟩

/-- Completeness of one federation group: when the federation resolves, the
group behaves exactly as the per-row loop. -/
theorem recoverGroup_complete (env : RecoveryEnv) (fid : String)
    (invs : List Invoice) (ups : List (Nat × InvoiceState))
    (mons : List String) :
    env.resolves fid = true →
    recoverGroup env fid invs = Except.ok (ups, mons) →
    ∀ r ∈ invs,
      (env.isExpired r.bolt11 = true →
        (r.id, InvoiceState.Cancelled) ∈ ups) ∧
      (env.isExpired r.bolt11 = false →
        env.subscribeOk fid r.opId = true → r.opId ∈ mons) := by
  intro hres h
  rw [RecoveryEnv.resolves, Bool.and_eq_true] at hres
  rw [recoverGroup, hres.1, hres.2] at h
  simp only [if_true] at h
  exact recoverRows_complete env fid invs ups mons h

/-- One federation group succeeds whenever its rows reference existing
users. -/
theorem recoverGroup_exists (env : RecoveryEnv) (fid : String)
    (invs : List Invoice) :
    (∀ r ∈ invs, (env.getUserById r.appUserId).isSome = true) →
    ∃ ups mons, recoverGroup env fid invs = Except.ok (ups, mons) := by
  intro husers
  rw [recoverGroup]
  cases hp : env.parseFederationId fid with
  | false => exact ⟨[], [], by simp⟩
  | true =>
    simp only [if_true]
    cases hc : env.hasClient fid with
    | false => exact ⟨[], [], by simp⟩
    | true =>
      simp only [if_true]
      exact recoverRows_exists env fid invs husers

/-- Soundness of the whole group loop: on success, every update is a
cancellation of an expired row of some resolvable group, and every monitored
id comes from an unexpired, subscribable row of some resolvable group. -/
theorem recoverGroups_sound (env : RecoveryEnv) :
    ∀ (l : List (String × List Invoice)) (ups : List (Nat × InvoiceState))
      (mons : List String),
      recoverGroups env l = Except.ok (ups, mons) →
      (∀ p ∈ ups, p.2 = InvoiceState.Cancelled ∧
        ∃ kg, kg ∈ l ∧ ∃ r, r ∈ kg.2 ∧ r.id = p.1 ∧
          env.isExpired r.bolt11 = true ∧ env.resolves kg.1 = true) ∧
      (∀ o ∈ mons, ∃ kg, kg ∈ l ∧ ∃ r, r ∈ kg.2 ∧ r.opId = o ∧
        env.isExpired r.bolt11 = false ∧
        env.subscribeOk kg.1 r.opId = true ∧ env.resolves kg.1 = true) := by
  intro l
  induction l with
  | nil =>
    intro ups mons h
    rw [recoverGroups] at h
    injection h with h
    injection h with h1 h2
    subst h1; subst h2
    exact ⟨by simp, by simp⟩
  | cons kg rest ih =>
    intro ups mons h
    obtain ⟨k, g⟩ := kg
    rw [recoverGroups] at h
    cases hg : recoverGroup env k g with
    | error msg => rw [hg] at h; cases h
    | ok pr1 =>
      obtain ⟨u1, m1⟩ := pr1
      rw [hg] at h
      cases hrest : recoverGroups env rest with
      | error msg => rw [hrest] at h; cases h
      | ok pr2 =>
        obtain ⟨u2, m2⟩ := pr2
        rw [hrest] at h
        injection h with h
        injection h with h1 h2
        subst h1; subst h2
        obtain ⟨hg1, hg2⟩ := recoverGroup_sound env k g u1 m1 hg
        obtain ⟨ih1, ih2⟩ := ih u2 m2 hrest
        constructor
        · intro p hp
          rcases List.mem_append.mp hp with hp | hp
          · obtain ⟨hC, r, hr, hid, he, hres⟩ := hg1 p hp
            exact ⟨hC, (k, g), List.mem_cons_self _ _, r, hr, hid, he, hres⟩
          · obtain ⟨hC, kg', hkg', r, hr, hid, he, hres⟩ := ih1 p hp
            exact ⟨hC, kg', List.mem_cons_of_mem _ hkg', r, hr, hid, he, hres⟩
        · intro o ho
          rcases List.mem_append.mp ho with ho | ho
          · obtain ⟨r, hr, hop, he, hs, hres⟩ := hg2 o ho
            exact ⟨(k, g), List.mem_cons_self _ _, r, hr, hop, he, hs, hres⟩
          · obtain ⟨kg', hkg', r, hr, hop, he, hs, hres⟩ := ih2 o ho
            exact ⟨kg', List.mem_cons_of_mem _ hkg', r, hr, hop, he, hs, hres⟩

/-- Completeness of the whole group loop: on success, every row of a
resolvable group got cancelled (if expired) or monitored (if its
subscription opens). -/
theorem recoverGroups_complete (env : RecoveryEnv) :
    ∀ (l : List (String × List Invoice)) (ups : List (Nat × InvoiceState))
      (mons : List String),
      recoverGroups env l = Except.ok (ups, mons) →
      ∀ kg ∈ l, env.resolves kg.1 = true → ∀ r ∈ kg.2,
        (env.isExpired r.bolt11 = true →
          (r.id, InvoiceState.Cancelled) ∈ ups) ∧
        (env.isExpired r.bolt11 = false →
          env.subscribeOk kg.1 r.opId = true → r.opId ∈ mons) := by
  intro l
  induction l with
  | nil => intro ups mons h kg hkg; cases hkg
  | cons kg0 rest ih =>
    intro ups mons h
    obtain ⟨k, g⟩ := kg0
    rw [recoverGroups] at h
    cases hg : recoverGroup env k g with
    | error msg => rw [hg] at h; cases h
    | ok pr1 =>
      obtain ⟨u1, m1⟩ := pr1
      rw [hg] at h
      cases hrest : recoverGroups env rest with
      | error msg => rw [hrest] at h; cases h
      | ok pr2 =>
        obtain ⟨u2, m2⟩ := pr2
        rw [hrest] at h
        injection h with h
        injection h with h1 h2
        subst h1; subst h2
        intro kg hkg hres r hr
        rcases List.mem_cons.mp hkg with hkg | hkg
        · subst hkg
          obtain ⟨h1, h2⟩ := recoverGroup_complete env k g u1 m1 hres hg r hr
          exact ⟨fun he => List.mem_append_left _ (h1 he),
            fun he hs => List.mem_append_left _ (h2 he hs)⟩
        · obtain ⟨h1, h2⟩ := ih u2 m2 hrest kg hkg hres r hr
          exact ⟨fun he => List.mem_append_right _ (h1 he),
            fun he hs => List.mem_append_right _ (h2 he hs)⟩

/-- The whole group loop succeeds whenever every row of every group
references an existing user. -/
theorem recoverGroups_exists (env : RecoveryEnv) :
    ∀ l : List (String × List Invoice),
      (∀ kg ∈ l, ∀ r ∈ kg.2, (env.getUserById r.appUserId).isSome = true) →
      ∃ ups mons, recoverGroups env l = Except.ok (ups, mons) := by
  intro l
  induction l with
  | nil => intro _; exact ⟨[], [], rfl⟩
  | cons kg0 rest ih =>
    intro husers
    obtain ⟨k, g⟩ := kg0
    obtain ⟨u1, m1, hg⟩ := recoverGroup_exists env k g
      (husers (k, g) (List.mem_cons_self _ _))
    obtain ⟨u2, m2, hrest⟩ :=
      ih fun kg hkg => husers kg (List.mem_cons_of_mem _ hkg)
    refine ⟨u1 ++ u2, m1 ++ m2, ?_⟩
    rw [recoverGroups, hg, hrest]

/-- Case analysis on `groupByFed` over a cons: either the tail groups to
nothing, or the head row merges into the tail's first run or starts a new
run. -/
theorem groupByFed_cons (inv : Invoice) (rest : List Invoice) :
    (groupByFed rest = [] ∧
      groupByFed (inv :: rest) = [(inv.federationId, [inv])]) ∨
    ∃ k0 g0 t, groupByFed rest = (k0, g0) :: t ∧
      ((inv.federationId = k0 ∧
         groupByFed (inv :: rest) = (k0, inv :: g0) :: t) ∨
       (inv.federationId ≠ k0 ∧
         groupByFed (inv :: rest) =
           (inv.federationId, [inv]) :: (k0, g0) :: t)) := by
  cases hg : groupByFed rest with
  | nil => exact Or.inl ⟨rfl, by rw [groupByFed, hg]⟩
  | cons p t =>
    obtain ⟨k0, g0⟩ := p
    refine Or.inr ⟨k0, g0, t, rfl, ?_⟩
    cases hfid : inv.federationId == k0 with
    | true =>
      refine Or.inl ⟨by simpa using hfid, ?_⟩
      rw [groupByFed, hg]
      simp [hfid]
    | false =>
      refine Or.inr ⟨by simpa using hfid, ?_⟩
      rw [groupByFed, hg]
      simp [hfid]

/-- Soundness of the grouping: every row of every group occurs among the
input rows and carries the group's key as its federation id. -/
theorem groupByFed_sound :
    ∀ (rows : List Invoice) (kg : String × List Invoice),
      kg ∈ groupByFed rows → ∀ r ∈ kg.2, r ∈ rows ∧ r.federationId = kg.1 := by
  intro rows
  induction rows with
  | nil => intro kg hkg; rw [groupByFed] at hkg; cases hkg
  | cons inv rest ih =>
    intro kg hkg r hr
    rcases groupByFed_cons inv rest with ⟨hg, he⟩ |
      ⟨k0, g0, t, hg, ⟨hfid, he⟩ | ⟨hfid, he⟩⟩
    · rw [he] at hkg
      have hk := List.mem_singleton.mp hkg
      subst hk
      have hri := List.mem_singleton.mp hr
      subst hri
      exact ⟨List.mem_cons_self _ _, rfl⟩
    · rw [he] at hkg
      rcases List.mem_cons.mp hkg with hkg | hkg
      · subst hkg
        rcases List.mem_cons.mp hr with hr | hr
        · subst hr
          exact ⟨List.mem_cons_self _ _, hfid⟩
        · have hres := ih (k0, g0)
            (by rw [hg]; exact List.mem_cons_self _ _) r hr
          exact ⟨List.mem_cons_of_mem _ hres.1, hres.2⟩
      · have hres := ih kg
          (by rw [hg]; exact List.mem_cons_of_mem _ hkg) r hr
        exact ⟨List.mem_cons_of_mem _ hres.1, hres.2⟩
    · rw [he] at hkg
      rcases List.mem_cons.mp hkg with hkg | hkg
      · subst hkg
        have hri := List.mem_singleton.mp hr
        subst hri
        exact ⟨List.mem_cons_self _ _, rfl⟩
      · have hres := ih kg (by rw [hg]; exact hkg) r hr
        exact ⟨List.mem_cons_of_mem _ hres.1, hres.2⟩

/-- Completeness of the grouping: every input row lands in some group. -/
theorem groupByFed_complete :
    ∀ (rows : List Invoice) (r : Invoice), r ∈ rows →
      ∃ kg, kg ∈ groupByFed rows ∧ r ∈ kg.2 := by
  intro rows
  induction rows with
  | nil => intro r hr; cases hr
  | cons inv rest ih =>
    intro r hr
    rcases groupByFed_cons inv rest with ⟨hg, he⟩ |
      ⟨k0, g0, t, hg, ⟨hfid, he⟩ | ⟨hfid, he⟩⟩
    · rcases List.mem_cons.mp hr with hr | hr
      · subst hr
        exact ⟨(r.federationId, [r]), by rw [he]; exact List.mem_singleton.mpr rfl,
          List.mem_singleton.mpr rfl⟩
      · obtain ⟨kg, hkg, -⟩ := ih r hr
        rw [hg] at hkg
        cases hkg
    · rcases List.mem_cons.mp hr with hr | hr
      · subst hr
        exact ⟨(k0, r :: g0), by rw [he]; exact List.mem_cons_self _ _,
          List.mem_cons_self _ _⟩
      · obtain ⟨kg, hkg, hrkg⟩ := ih r hr
        rw [hg] at hkg
        rcases List.mem_cons.mp hkg with hkg | hkg
        · subst hkg
          exact ⟨(k0, inv :: g0), by rw [he]; exact List.mem_cons_self _ _,
            List.mem_cons_of_mem _ hrkg⟩
        · exact ⟨kg, by rw [he]; exact List.mem_cons_of_mem _ hkg, hrkg⟩
    · rcases List.mem_cons.mp hr with hr | hr
      · subst hr
        exact ⟨(r.federationId, [r]), by rw [he]; exact List.mem_cons_self _ _,
          List.mem_singleton.mpr rfl⟩
      · obtain ⟨kg, hkg, hrkg⟩ := ih r hr
        rw [hg] at hkg
        exact ⟨kg, by rw [he]; exact List.mem_cons_of_mem _ hkg, hrkg⟩

/-- Collecting the runs into a map only keeps runs that were present. -/
theorem collectMap_subset :
    ∀ (l : List (String × List Invoice)) (kg : String × List Invoice),
      kg ∈ collectMap l → kg ∈ l := by
  intro l
  induction l with
  | nil => intro kg hkg; rw [collectMap] at hkg; cases hkg
  | cons p rest ih =>
    intro kg hkg
    obtain ⟨k, v⟩ := p
    rw [collectMap] at hkg
    cases hany : rest.any (fun q => q.1 == k) with
    | true =>
      rw [hany] at hkg
      simp only [if_true] at hkg
      exact List.mem_cons_of_mem _ (ih kg hkg)
    | false =>
      rw [hany] at hkg
      simp only [Bool.false_eq_true, if_false] at hkg
      rcases List.mem_cons.mp hkg with hkg | hkg
      · subst hkg; exact List.mem_cons_self _ _
      · exact List.mem_cons_of_mem _ (ih kg hkg)

/-- When the run keys are pairwise distinct (rows arrived grouped by
federation), collecting into the map loses nothing. -/
theorem collectMap_eq_self :
    ∀ l : List (String × List Invoice),
      (l.map Prod.fst).Nodup → collectMap l = l := by
  intro l
  induction l with
  | nil => intro _; rfl
  | cons p rest ih =>
    intro hnd
    obtain ⟨k, v⟩ := p
    rw [List.map_cons, List.nodup_cons] at hnd
    have hany : rest.any (fun q => q.1 == k) = false := by
      rw [List.any_eq_false]
      intro q hq hbeq
      exact hnd.1 (List.mem_map.mpr ⟨q, hq, by simpa using hbeq⟩)
    rw [collectMap, hany]
    simp only [Bool.false_eq_true, if_false]
    rw [ih hnd.2]

/-- C6: payment-row transitions are monotonic.  A watcher performs at most
one state transition, every transition it performs targets a terminal state
(`Settled` or `Cancelled`) and is the last action of its trace (the watcher
stops), and every transition performed by the recovery pass sets a row drawn
from the pending input to `Cancelled`.  Since watchers and recovery only act
on rows that are `Pending` (freshly created or loaded by
`get_pending_invoices`), the only transitions ever performed are
Pending→Settled and Pending→Cancelled, and no operation transitions a
`Settled` or `Cancelled` row. -/
theorem c6_monotonic_transitions :
    ∀ (notifyOk : Bool) (events : List LnReceiveState),
      (spawn_invoice_subscription notifyOk events).countP isSetAction ≤ 1 ∧
      (∀ s, WatcherAction.setState s ∈
          spawn_invoice_subscription notifyOk events →
        (s = InvoiceState.Settled ∨ s = InvoiceState.Cancelled) ∧
        ∃ pre, spawn_invoice_subscription notifyOk events =
          pre ++ [WatcherAction.setState s]) ∧
      (∀ (env : RecoveryEnv) (rows : List Invoice)
          (ups : List (Nat × InvoiceState)) (mons : List String),
        handle_pending_invoices env rows = Except.ok (ups, mons) →
        ∀ p ∈ ups, p.2 = InvoiceState.Cancelled ∧
          p.1 ∈ rows.map Invoice.id) := by
  intro ok evs
  refine ⟨?_, ?_, ?_⟩
  · rcases spawnTrace_shape ok evs with h | h | ⟨-, h⟩ | ⟨-, h⟩ <;>
      rw [h] <;> decide
  · intro s hs
    rcases spawnTrace_shape ok evs with h | h | ⟨-, h⟩ | ⟨-, h⟩ <;>
      rw [h] at hs ⊢
    · cases hs
    · have hm := List.mem_singleton.mp hs
      injection hm with hm
      subst hm
      exact ⟨Or.inr rfl, [], rfl⟩
    · rcases List.mem_cons.mp hs with h1 | h1
      · exact WatcherAction.noConfusion h1
      · have hm := List.mem_singleton.mp h1
        injection hm with hm
        subst hm
        exact ⟨Or.inl rfl, [WatcherAction.notify true], rfl⟩
    · rcases List.mem_cons.mp hs with h1 | h1
      · exact WatcherAction.noConfusion h1
      · cases h1
  · intro env rows ups mons h p hp
    have h' : recoverGroups env (collectMap (groupByFed rows)) =
        Except.ok (ups, mons) := h
    obtain ⟨hu, -⟩ :=
      recoverGroups_sound env (collectMap (groupByFed rows)) ups mons h'
    obtain ⟨hC, kg, hkg, r, hr, hid, -, -⟩ := hu p hp
    have hkg' := collectMap_subset _ kg hkg
    have hrr := (groupByFed_sound rows kg hkg' r hr).1
    exact ⟨hC, List.mem_map.mpr ⟨r, hrr, hid⟩⟩

/-- C6 witness: a settling watcher run and a concrete recovery pass. -/
theorem c6_monotonic_transitions_witness :
    (spawn_invoice_subscription true [LnReceiveState.claimed]).countP
      isSetAction ≤ 1 ∧
    (∃ pre, spawn_invoice_subscription true [LnReceiveState.claimed] =
      pre ++ [WatcherAction.setState InvoiceState.Settled]) ∧
    ((1, InvoiceState.Cancelled) : Nat × InvoiceState).2 =
      InvoiceState.Cancelled ∧
    ((1, InvoiceState.Cancelled) : Nat × InvoiceState).1 ∈
      rowsW.map Invoice.id := by
  obtain ⟨h1, h2, h3⟩ := c6_monotonic_transitions true [LnReceiveState.claimed]
  have h4 := h3 recoveryEnvW rowsW [(1, InvoiceState.Cancelled)]
    ["op2", "op3"] rfl (1, InvoiceState.Cancelled) (List.mem_singleton.mpr rfl)
  exact ⟨h1, (h2 InvoiceState.Settled (by decide)).2, h4.1, h4.2⟩

/-- C3 counterexample: the claim says every pending row whose wire request
is expired is transitioned to `Cancelled` without contacting the federation.
In the code the expiry check only runs AFTER the federation id parses and a
federation client is obtained: an expired row whose federation id does not
resolve is silently left `Pending` — the recovery pass performs no update at
all. -/
theorem c3_expired_row_unresolvable_federation_left_pending :
    handle_pending_invoices recoveryEnvUnresolvable [rowExpired] =
      Except.ok ([], []) ∧
    recoveryEnvUnresolvable.isExpired rowExpired.bolt11 = true ∧
    rowExpired.state = InvoiceState.Pending :=
  ⟨rfl, rfl, rfl⟩

/-- C3 amended: over a recovery pass whose pending rows arrive grouped by
federation id and all reference existing users, the pass completes without
crash; a row is transitioned — always to `Cancelled`, without opening a
subscription — exactly when its federation resolves AND its wire request is
expired; a row is monitored exactly when its federation resolves, it is
unexpired and its subscription opens; all other rows (in particular rows of
unresolvable federations, even expired ones, and rows whose subscription
fails) undergo no state change. -/
theorem c3_recovery_characterization :
    ∀ (env : RecoveryEnv) (rows : List Invoice),
      ((groupByFed rows).map Prod.fst).Nodup →
      (∀ r ∈ rows, (env.getUserById r.appUserId).isSome = true) →
      ∃ ups mons,
        handle_pending_invoices env rows = Except.ok (ups, mons) ∧
        (∀ r ∈ rows, env.resolves r.federationId = true →
          env.isExpired r.bolt11 = true →
          (r.id, InvoiceState.Cancelled) ∈ ups) ∧
        (∀ p ∈ ups, p.2 = InvoiceState.Cancelled ∧
          ∃ r, r ∈ rows ∧ r.id = p.1 ∧ env.isExpired r.bolt11 = true ∧
            env.resolves r.federationId = true) ∧
        (∀ r ∈ rows, env.resolves r.federationId = true →
          env.isExpired r.bolt11 = false →
          env.subscribeOk r.federationId r.opId = true → r.opId ∈ mons) ∧
        (∀ o ∈ mons, ∃ r, r ∈ rows ∧ r.opId = o ∧
          env.isExpired r.bolt11 = false ∧
          env.subscribeOk r.federationId r.opId = true ∧
          env.resolves r.federationId = true) := by
  intro env rows hnodup husers
  have hcm : collectMap (groupByFed rows) = groupByFed rows :=
    collectMap_eq_self _ hnodup
  have husers' : ∀ kg ∈ groupByFed rows, ∀ r ∈ kg.2,
      (env.getUserById r.appUserId).isSome = true :=
    fun kg hkg r hr => husers r (groupByFed_sound rows kg hkg r hr).1
  obtain ⟨ups, mons, hok⟩ := recoverGroups_exists env (groupByFed rows) husers'
  have hhandle : handle_pending_invoices env rows = Except.ok (ups, mons) := by
    rw [handle_pending_invoices, hcm]
    exact hok
  refine ⟨ups, mons, hhandle, ?_, ?_, ?_, ?_⟩
  · intro r hr hres hexp
    obtain ⟨kg, hkg, hrg⟩ := groupByFed_complete rows r hr
    have hfid := (groupByFed_sound rows kg hkg r hrg).2
    rw [hfid] at hres
    exact (recoverGroups_complete env (groupByFed rows) ups mons hok
      kg hkg hres r hrg).1 hexp
  · intro p hp
    obtain ⟨hC, kg, hkg, r, hrg, hid, hexp, hres⟩ :=
      (recoverGroups_sound env (groupByFed rows) ups mons hok).1 p hp
    obtain ⟨hrrows, hfid⟩ := groupByFed_sound rows kg hkg r hrg
    exact ⟨hC, r, hrrows, hid, hexp, by rw [hfid]; exact hres⟩
  · intro r hr hres hexp hsub
    obtain ⟨kg, hkg, hrg⟩ := groupByFed_complete rows r hr
    have hfid := (groupByFed_sound rows kg hkg r hrg).2
    rw [hfid] at hres hsub
    exact (recoverGroups_complete env (groupByFed rows) ups mons hok
      kg hkg hres r hrg).2 hexp hsub
  · intro o ho
    obtain ⟨kg, hkg, r, hrg, hop, hexp, hsub, hres⟩ :=
      (recoverGroups_sound env (groupByFed rows) ups mons hok).2 o ho
    obtain ⟨hrrows, hfid⟩ := groupByFed_sound rows kg hkg r hrg
    exact ⟨r, hrrows, hop, hexp, by rw [hfid]; exact hsub,
      by rw [hfid]; exact hres⟩

/-- C3 witness: three pending rows across two resolvable federations, the
first expired, recover without crash. -/
theorem c3_recovery_characterization_witness :
    ∃ ups mons,
      handle_pending_invoices recoveryEnvW rowsW = Except.ok (ups, mons) := by
  obtain ⟨ups, mons, hok, -, -, -, -⟩ :=
    c3_recovery_characterization recoveryEnvW rowsW (by decide) (by decide)
  exact ⟨ups, mons, hok⟩

end Hermes
